import Mathlib

/-!
Verification of the PhoneDash refurbished-phone inventory backend.

The Python source (utils.py, services.py, database.py, models.py) is embedded
shallowly: prices (Python floats used as exact decimals) are modelled as `ℚ`,
dictionaries keyed by platform code as association lists, the two module-level
collections (`db`, `action_log_db`) as an explicit state record threaded
through the service operations, and persistence (`save_phone_database`,
`save_log_database`) as the identity on that state, since the in-memory
collections are the sole source of truth the services read.
-/

namespace PhoneDash

/-- Rounding to 2 decimal places, as `round(price, 2)` in utils.py.
Ties follow Mathlib's `round` (half-up); no claim below depends on a tie. -/
def round2 (x : ℚ) : ℚ := ((round (x * 100) : ℤ) : ℚ) / 100

/-- utils.calculate_platform_price: manual-override check first, then the
platform fee structure, then rounding to 2 decimal places. -/
def calculate_platform_price (base_price : ℚ) (platform : String)
    (manual_overrides : List (String × Option ℚ)) : ℚ :=
  -- Check for a manual override first
  match manual_overrides.lookup platform with
  | some (some v) => v
  | _ =>
    -- If no override, calculate based on the platform fee structure
    let price : ℚ :=
      if platform = "X" then base_price * 1.10
      else if platform = "Y" then base_price * 1.08 + 2.0
      else if platform = "Z" then base_price * 1.12
      else base_price
    round2 price

/-- The translation table CONDITION_MAPPERS of utils.map_condition_to_platform. -/
def condition_mappers (platform : String) : Option (List (String × String)) :=
  if platform = "X" then
    some [("Excellent", "New"), ("Good", "Good"), ("Scrap", "Scrap")]
  else if platform = "Y" then
    some [("Excellent", "3 stars (Excellent)"), ("Good", "2 stars (Good)"),
          ("Usable", "1 star (Usable)")]
  else if platform = "Z" then
    some [("Excellent", "New"), ("Good", "As New"), ("Usable", "Good")]
  else
    none

/-- utils.map_condition_to_platform: platform table lookup, then condition
lookup inside it; `none` when either is missing. -/
def map_condition_to_platform (internal_condition platform : String) :
    Option String :=
  match condition_mappers platform with
  | some platform_map => platform_map.lookup internal_condition
  | none => none

/-- The overrides mapping carries no usable override for `p`: the key is
absent, or present with value null (`None`). -/
def noOverride (ov : List (String × Option ℚ)) (p : String) : Prop :=
  ov.lookup p = none ∨ ov.lookup p = some none

/-- The fixed platform set iterated by the services as `["X", "Y", "Z"]`. -/
def platforms : List String := ["X", "Y", "Z"]

/-- A phone record of the database: the dictionary shape produced by
services.create_phone, typed by models.Phone. -/
structure Phone where
  id : Nat
  model_name : String
  brand : String
  condition : String
  specifications : List (String × String)
  stock_quantity : Nat
  base_price : ℚ
  platform_prices : List (String × ℚ)
  manual_overrides : List (String × Option ℚ)
  listed_on : List String
  tags : List String
deriving Repr, DecidableEq

/-- An entry of the action log (models.ActionLog without the timestamp, which
no service operation reads). -/
structure LogEntry where
  id : Nat
  action : String
  details : String
deriving Repr, DecidableEq

/-- The state owned by the service layer: the module-level collections `db`
and `action_log_db` of database.py. File persistence is write-only from the
point of view of the operations, hence not part of the state. -/
structure St where
  db : List Phone
  log : List LogEntry
deriving Repr, DecidableEq

/-- The empty starting state (both JSON files absent or invalid). -/
def initSt : St := { db := [], log := [] }

/-- services.log_action: id is max of existing log ids plus one (1 when the
log is empty; `foldl Nat.max 0` is the max of a nonempty list of `Nat`),
inserted at the head of the log. -/
def log_action (action details : String) (log : List LogEntry) :
    List LogEntry :=
  let log_id := if log.isEmpty then 1
                else (log.map LogEntry.id).foldl Nat.max 0 + 1
  ({ id := log_id, action := action, details := details } : LogEntry) :: log

/-- The id assignment of services.create_phone:
`max([p["id"] for p in db]) + 1 if db else 1`. -/
def next_phone_id (db : List Phone) : Nat :=
  if db.isEmpty then 1 else (db.map Phone.id).foldl Nat.max 0 + 1

/-- The input mapping of create_phone. `id?` models a possible "id" key in
the raw dictionary (reachable through bulk upload, whose CSV records are
passed through unfiltered, or a direct service call); the typed API path
(PhoneCreate) never sets it. `_ensure_specifications_is_dict` is the
identity here because `specifications` is already a mapping. -/
structure PhoneData where
  id? : Option Nat := none
  model_name : String
  brand : String
  condition : String
  specifications : List (String × String) := []
  stock_quantity : Nat
  base_price : ℚ
deriving Repr, DecidableEq

/-- services.create_phone. The dictionary literal
`{"id": phone_id, **phone_data, "platform_prices": {}, "manual_overrides": {},
"listed_on": [], "tags": []}` lets an "id" key of phone_data overwrite the
assigned id (later keys win), while the four trailing keys overwrite any such
keys of phone_data; platform_prices is then recomputed over the platform set
from the new phone's base price and (empty) manual overrides. -/
def create_phone (phone_data : PhoneData) (s : St) : Phone × St :=
  let phone_id := next_phone_id s.db
  let new_phone : Phone :=
    { id := phone_data.id?.getD phone_id
      model_name := phone_data.model_name
      brand := phone_data.brand
      condition := phone_data.condition
      specifications := phone_data.specifications
      stock_quantity := phone_data.stock_quantity
      base_price := phone_data.base_price
      platform_prices := []
      manual_overrides := []
      listed_on := []
      tags := [] }
  let new_phone : Phone :=
    { new_phone with
      platform_prices := platforms.map fun p =>
        (p, calculate_platform_price new_phone.base_price p
              new_phone.manual_overrides) }
  (new_phone,
   { db := s.db ++ [new_phone]
     log := log_action "Phone Created"
       ("New phone " ++ phone_data.model_name ++ " was added.") s.log })

/-- The partial update accepted by services.update_phone, with exactly the
optional fields of models.PhoneUpdate (main.py passes
`phone_update.dict(exclude_unset=True)`). -/
structure PhoneUpdate where
  model_name : Option String := none
  brand : Option String := none
  condition : Option String := none
  specifications : Option (List (String × String)) := none
  stock_quantity : Option Nat := none
  base_price : Option ℚ := none
  tags : Option (List String) := none
  manual_overrides : Option (List (String × Option ℚ)) := none
deriving Repr, DecidableEq

/-- The in-place mutation of one phone dict inside services.update_phone:
a present "manual_overrides" replaces the stored mapping wholesale, the
remaining present fields are shallow-merged by `phone.update(...)`, and
platform_prices is unconditionally recomputed afterwards. -/
def apply_phone_update (u : PhoneUpdate) (phone : Phone) : Phone :=
  let phone : Phone :=
    { phone with
      manual_overrides := u.manual_overrides.getD phone.manual_overrides }
  let phone : Phone :=
    { phone with
      model_name := u.model_name.getD phone.model_name
      brand := u.brand.getD phone.brand
      condition := u.condition.getD phone.condition
      specifications := u.specifications.getD phone.specifications
      stock_quantity := u.stock_quantity.getD phone.stock_quantity
      base_price := u.base_price.getD phone.base_price
      tags := u.tags.getD phone.tags }
  { phone with
    platform_prices := platforms.map fun p =>
      (p, calculate_platform_price phone.base_price p phone.manual_overrides) }

/-- The `for phone in db` loop of services.update_phone: mutate the first
phone whose id matches and stop; `none` when no phone matches. -/
def update_in_db (phone_id : Nat) (u : PhoneUpdate) :
    List Phone → Option (Phone × List Phone)
  | [] => none
  | phone :: rest =>
    if phone.id = phone_id then
      let updated := apply_phone_update u phone
      some (updated, updated :: rest)
    else
      match update_in_db phone_id u rest with
      | none => none
      | some (r, rest2) => some (r, phone :: rest2)

/-- services.update_phone: first match is updated and logged; `none` (and an
untouched state) when the id is absent. -/
def update_phone (phone_id : Nat) (u : PhoneUpdate) (s : St) :
    Option Phone × St :=
  match update_in_db phone_id u s.db with
  | none => (none, s)
  | some (updated, db2) =>
    (some updated,
     { db := db2
       log := log_action "Phone Updated"
         ("Phone ID " ++ toString phone_id ++ " (" ++ updated.model_name ++
          ") was updated.") s.log })

/-- The removal in services.delete_phone:
`next((p for p in db if p["id"] == phone_id), None)` then `db.remove(...)`
drops the first phone whose id matches. -/
def delete_from_db (phone_id : Nat) :
    List Phone → Option (Phone × List Phone)
  | [] => none
  | phone :: rest =>
    if phone.id = phone_id then some (phone, rest)
    else
      match delete_from_db phone_id rest with
      | none => none
      | some (d, rest2) => some (d, phone :: rest2)

/-- services.delete_phone: `true` plus the shrunk collection and a log entry
when found, `false` with the state untouched otherwise. -/
def delete_phone (phone_id : Nat) (s : St) : Bool × St :=
  match delete_from_db phone_id s.db with
  | none => (false, s)
  | some (phone, db2) =>
    (true,
     { db := db2
       log := log_action "Phone Deleted"
         ("Phone " ++ phone.model_name ++ " (ID: " ++ toString phone_id ++
          ") was deleted.") s.log })

/-- services.get_phone_by_id: first phone whose id matches. -/
def get_phone_by_id (phone_id : Nat) (db : List Phone) : Option Phone :=
  db.find? (fun phone => phone.id == phone_id)

/-- The outcome dictionary of services.list_phone_on_platform: either
`{"error": ...}` or `{"message": ...}`. -/
inductive ListingResult where
  | error (msg : String)
  | message (msg : String)
deriving Repr, DecidableEq

/-- The `for phone_dict in db ... break` loop of list_phone_on_platform:
overwrite listed_on of the first phone whose id matches. -/
def set_listed_on (phone_id : Nat) (l : List String) :
    List Phone → List Phone
  | [] => []
  | phone :: rest =>
    if phone.id = phone_id then { phone with listed_on := l } :: rest
    else phone :: set_listed_on phone_id l rest

/-- services.list_phone_on_platform: the eligibility chain (not found, out of
stock, unsupported condition, platform-X fee rule), then the idempotent
append to listed_on with a "Platform Listing" log entry only on first
listing. -/
def list_phone_on_platform (phone_id : Nat) (platform : String) (s : St) :
    ListingResult × St :=
  match get_phone_by_id phone_id s.db with
  | none => (.error "Phone not found", s)
  | some phone =>
    if phone.stock_quantity = 0 then
      (.error "Cannot list out-of-stock phone", s)
    else
      match map_condition_to_platform phone.condition platform with
      | none =>
        (.error ("Condition " ++ phone.condition ++ " not supported on " ++
                 platform), s)
      | some _ =>
        if platform = "X" ∧ phone.base_price < 50 then
          (.error "Listing fee too high for this phone on platform X", s)
        else if platform ∈ phone.listed_on then
          (.message ("Successfully listed " ++ phone.model_name ++
                     " on platform " ++ platform), s)
        else
          (.message ("Successfully listed " ++ phone.model_name ++
                     " on platform " ++ platform),
           { db := set_listed_on phone_id (phone.listed_on ++ [platform]) s.db
             log := log_action "Platform Listing"
               (phone.model_name ++ " listed on platform " ++ platform)
               s.log })

/-- models.PhonePage. -/
structure PhonePage where
  total_items : Nat
  items : List Phone
deriving Repr, DecidableEq

/-- services.search_and_filter_phones. Python `if brand:` is false both for
`None` and for the empty string, hence the explicit empty-string guard; the
pagination is the slice `results[skip : skip + limit]`. -/
def search_and_filter_phones (brand condition platform : Option String)
    (skip limit : Nat) (db : List Phone) : PhonePage :=
  let results := db
  let results := match brand with
    | some b => if b = "" then results
                else results.filter (fun p => p.brand.toLower == b.toLower)
    | none => results
  let results := match condition with
    | some c => if c = "" then results
                else results.filter (fun p => p.condition.toLower == c.toLower)
    | none => results
  let results := match platform with
    | some pl => if pl = "" then results
                 else results.filter (fun p => p.listed_on.contains pl)
    | none => results
  let total_items := results.length
  let paginated_results := (results.drop skip).take limit
  { total_items := total_items, items := paginated_results }

/-- services.bulk_list_on_platform: snapshot the filtered items (platform
filter not applied, limit = len(db)), then attempt list_phone_on_platform for
every snapshot item not already listed, tallying error vs message outcomes,
and close with one aggregate "Bulk Listing" log entry. -/
def bulk_list_on_platform (platform : String)
    (brand condition : Option String) (s : St) : (Nat × Nat) × St :=
  let phone_page := search_and_filter_phones brand condition none 0
    s.db.length s.db
  let phones_to_list := phone_page.items
  let folded :=
    phones_to_list.foldl
      (fun acc phone =>
        let ((succ, failed), st) := acc
        if platform ∈ phone.listed_on then ((succ, failed), st)
        else
          match list_phone_on_platform phone.id platform st with
          | (.error _, st2) => ((succ, failed + 1), st2)
          | (.message _, st2) => ((succ + 1, failed), st2))
      (((0, 0) : Nat × Nat), s)
  let ((success_count, fail_count), s2) := folded
  ((success_count, fail_count),
   { s2 with
     log := log_action "Bulk Listing"
       ("Attempted to bulk list " ++ toString (success_count + fail_count) ++
        " phones on Platform " ++ platform ++ ". Success: " ++
        toString success_count ++ ", Failed: " ++ toString fail_count ++ ".")
       s2.log })

/-- services.update_platform_prices: recompute platform_prices for every
phone from its own base price and manual overrides (`phone.get(
"manual_overrides", {})`, always present in records built by create_phone),
then one "Price Update" log entry. -/
def update_platform_prices (s : St) : St :=
  { db := s.db.map fun phone =>
      { phone with
        platform_prices := platforms.map fun p =>
          (p, calculate_platform_price phone.base_price p
                phone.manual_overrides) }
    log := log_action "Price Update"
      "Automatic price update triggered for all phones." s.log }

/-- services.bulk_upload_phones: create_phone for every record in order,
then one trailing "Bulk Upload" log entry with the count. -/
def bulk_upload_phones (phones_data : List PhoneData) (s : St) : St :=
  let s2 := phones_data.foldl (fun st d => (create_phone d st).2) s
  { s2 with
    log := log_action "Bulk Upload"
      (toString phones_data.length ++ " phones were added via bulk upload.")
      s2.log }

/-- One mutating call into the Inventory Service. -/
inductive Op where
  | create (d : PhoneData)
  | update (phone_id : Nat) (u : PhoneUpdate)
  | delete (phone_id : Nat)
  | listOn (phone_id : Nat) (platform : String)
  | bulkList (platform : String) (brand condition : Option String)
  | priceUpdate
  | bulkUpload (ds : List PhoneData)
deriving Repr

/-- State transition of one service call (return values discarded). -/
def step (s : St) (op : Op) : St :=
  match op with
  | .create d => (create_phone d s).2
  | .update pid u => (update_phone pid u s).2
  | .delete pid => (delete_phone pid s).2
  | .listOn pid p => (list_phone_on_platform pid p s).2
  | .bulkList p b c => (bulk_list_on_platform p b c s).2
  | .priceUpdate => update_platform_prices s
  | .bulkUpload ds => bulk_upload_phones ds s

/-- Run a sequence of service calls from the empty starting state. -/
def run (ops : List Op) : St := ops.foldl step initSt

/-- The three listing eligibility checks of list_phone_on_platform (after the
not-found check): in stock, condition supported on the platform, and the
platform-X fee rule. -/
def eligible (phone : Phone) (p : String) : Prop :=
  phone.stock_quantity ≠ 0 ∧
  (map_condition_to_platform phone.condition p).isSome ∧
  ¬(p = "X" ∧ phone.base_price < 50)

instance (phone : Phone) (p : String) : Decidable (eligible phone p) := by
  unfold eligible; infer_instance

/-- Count of log entries carrying a given action label. -/
def count_log (action : String) (log : List LogEntry) : Nat :=
  (log.filter (fun e => e.action == action)).length

/-- The per-option search predicates, stated independently of
search_and_filter_phones: case-insensitive brand equality when a non-empty
brand is given. -/
def brand_ok (brand : Option String) (p : Phone) : Bool :=
  match brand with
  | some b => if b = "" then true else p.brand.toLower == b.toLower
  | none => true

/-- Case-insensitive condition equality when a non-empty condition is given. -/
def condition_ok (condition : Option String) (p : Phone) : Bool :=
  match condition with
  | some c => if c = "" then true else p.condition.toLower == c.toLower
  | none => true

/-- Membership of a non-empty platform argument in listed_on. -/
def platform_ok (platform : Option String) (p : Phone) : Bool :=
  match platform with
  | some pl => if pl = "" then true else p.listed_on.contains pl
  | none => true

/-- An update is eligibility-safe when it touches none of the three fields
the listing checks read. -/
def op_safe : Op → Prop
  | .update _ u =>
      u.stock_quantity = none ∧ u.condition = none ∧ u.base_price = none
  | _ => True

/-- Concrete sample phone for witnesses. -/
def samplePhone : Phone :=
  { id := 1, model_name := "iPhone 12", brand := "Apple", condition := "Good"
    specifications := [], stock_quantity := 10, base_price := 500
    platform_prices := [("X", 550), ("Y", 542), ("Z", 560)]
    manual_overrides := [], listed_on := [], tags := [] }

/-- Sample phone already listed on platform Y. -/
def samplePhoneListed : Phone := { samplePhone with listed_on := ["Y"] }

/-- One-phone sample state. -/
def sampleSt : St := { db := [samplePhone], log := [] }

/-- Sample state whose phone is already listed on Y. -/
def sampleStListed : St := { db := [samplePhoneListed], log := [] }

/-- Concrete creation input for witnesses (no "id" key). -/
def sampleData : PhoneData :=
  { model_name := "PhoneA", brand := "BrandA", condition := "Good"
    stock_quantity := 5, base_price := 100 }

/-- Concrete creation input carrying an explicit "id" key. -/
def sampleDataWithId : PhoneData :=
  { id? := some 7, model_name := "PhoneB", brand := "BrandB"
    condition := "Good", stock_quantity := 3, base_price := 200 }

/-- A partial update that only zeroes the stock. -/
def sampleStockZero : PhoneUpdate := { stock_quantity := some 0 }

end PhoneDash

namespace PhoneDash

/-- C1: with no present non-null override for the platform,
calculate_platform_price returns round(b*1.10, 2) on X, round(b*1.08+2.0, 2)
on Y and round(b*1.12, 2) on Z. -/
theorem calc_price_fee_formula (b : ℚ) (ov : List (String × Option ℚ))
    (hx : noOverride ov "X") (hy : noOverride ov "Y")
    (hz : noOverride ov "Z") :
    calculate_platform_price b "X" ov = round2 (b * 1.10) ∧
    calculate_platform_price b "Y" ov = round2 (b * 1.08 + 2.0) ∧
    calculate_platform_price b "Z" ov = round2 (b * 1.12) := by
  refine ⟨?_, ?_, ?_⟩ <;>
    [rcases hx with h | h; rcases hy with h | h; rcases hz with h | h] <;>
    simp [calculate_platform_price, h]

/-- Witness for C1 at b = 500 with the empty overrides mapping. -/
theorem calc_price_fee_formula_witness :
    noOverride [] "X" ∧
    (calculate_platform_price 500 "X" [] = round2 (500 * 1.10) ∧
     calculate_platform_price 500 "Y" [] = round2 (500 * 1.08 + 2.0) ∧
     calculate_platform_price 500 "Z" [] = round2 (500 * 1.12)) :=
  ⟨Or.inl rfl,
   calc_price_fee_formula 500 [] (Or.inl rfl) (Or.inl rfl) (Or.inl rfl)⟩

/-- C2: a present non-null override v is returned unchanged, whatever the base
price; with the entry absent or null, the result is exactly the no-override
fee computation for that platform. -/
theorem calc_price_override_precedence (b : ℚ) (p : String)
    (ov : List (String × Option ℚ)) :
    (∀ v : ℚ, ov.lookup p = some (some v) →
      calculate_platform_price b p ov = v) ∧
    (noOverride ov p →
      calculate_platform_price b p ov = calculate_platform_price b p []) := by
  constructor
  · intro v h
    simp [calculate_platform_price, h]
  · intro h
    rcases h with h | h <;> simp [calculate_platform_price, h]

/-- Witness for C2 at b = 500, platform Y, override 545. -/
theorem calc_price_override_precedence_witness :
    ((("Y", some (545 : ℚ)) :: []).lookup "Y" = some (some 545) ∧
      calculate_platform_price 500 "Y" [("Y", some 545)] = 545) ∧
    (noOverride [] "Y" ∧
      calculate_platform_price 500 "Y" [] = calculate_platform_price 500 "Y" []) :=
  ⟨⟨rfl, (calc_price_override_precedence 500 "Y" [("Y", some 545)]).1 545 rfl⟩,
   ⟨Or.inl rfl,
    (calc_price_override_precedence 500 "Y" []).2 (Or.inl rfl)⟩⟩

/-- C7 counterexample: at b = 0.123 and unknown platform "W" the code returns
round(b, 2) = 0.12, not b unchanged. -/
theorem calc_price_unknown_platform_counterexample :
    calculate_platform_price 0.123 "W" [] ≠ 0.123 := by
  simp only [calculate_platform_price, List.lookup]
  simp only [String.reduceEq, reduceIte]
  norm_num [round2, round_eq]

/-- C7 amended: for a platform code outside X, Y, Z with no present non-null
override, calculate_platform_price returns round2 of the base price (so the
base price unchanged exactly when it already has at most 2 decimals). -/
theorem calc_price_unknown_platform (b : ℚ) (p : String)
    (ov : List (String × Option ℚ))
    (hp : p ≠ "X" ∧ p ≠ "Y" ∧ p ≠ "Z") (h : noOverride ov p) :
    calculate_platform_price b p ov = round2 b := by
  obtain ⟨h1, h2, h3⟩ := hp
  rcases h with h | h <;> simp [calculate_platform_price, h, h1, h2, h3]

/-- Witness for the amended C7 at b = 0.123, platform "W". -/
theorem calc_price_unknown_platform_witness :
    (("W" : String) ≠ "X" ∧ ("W" : String) ≠ "Y" ∧ ("W" : String) ≠ "Z") ∧
    noOverride [] "W" ∧
    calculate_platform_price 0.123 "W" [] = round2 0.123 :=
  ⟨by decide, Or.inl rfl,
   calc_price_unknown_platform 0.123 "W" []
     (by decide) (Or.inl rfl)⟩

end PhoneDash

namespace PhoneDash

theorem update_in_db_eq_none (phone_id : Nat) (u : PhoneUpdate)
    (db : List Phone) (h : ∀ ph ∈ db, ph.id ≠ phone_id) :
    update_in_db phone_id u db = none := by
  induction db with
  | nil => rfl
  | cons ph rest ih =>
    have h1 : ph.id ≠ phone_id := h ph (List.mem_cons_self _ _)
    simp only [update_in_db, if_neg h1,
      ih (fun q hq => h q (List.mem_cons_of_mem _ hq))]

theorem delete_from_db_eq_none (phone_id : Nat) (db : List Phone)
    (h : ∀ ph ∈ db, ph.id ≠ phone_id) :
    delete_from_db phone_id db = none := by
  induction db with
  | nil => rfl
  | cons ph rest ih =>
    have h1 : ph.id ≠ phone_id := h ph (List.mem_cons_self _ _)
    simp only [delete_from_db, if_neg h1,
      ih (fun q hq => h q (List.mem_cons_of_mem _ hq))]

theorem get_phone_by_id_eq_none (phone_id : Nat) (db : List Phone)
    (h : ∀ ph ∈ db, ph.id ≠ phone_id) :
    get_phone_by_id phone_id db = none := by
  rw [get_phone_by_id, List.find?_eq_none]
  intro ph hph
  simpa using h ph hph

/-- C9: on an absent id, update returns the not-found outcome, delete
returns failure, and listOnPlatform returns the not-found error, each
leaving the phone collection and the action log untouched. -/
theorem absent_id_operations_noop (s : St) (phone_id : Nat)
    (u : PhoneUpdate) (platform : String)
    (h : ∀ ph ∈ s.db, ph.id ≠ phone_id) :
    update_phone phone_id u s = (none, s) ∧
    delete_phone phone_id s = (false, s) ∧
    list_phone_on_platform phone_id platform s =
      (ListingResult.error "Phone not found", s) := by
  refine ⟨?_, ?_, ?_⟩
  · rw [update_phone, update_in_db_eq_none phone_id u s.db h]
  · rw [delete_phone, delete_from_db_eq_none phone_id s.db h]
  · rw [list_phone_on_platform, get_phone_by_id_eq_none phone_id s.db h]

/-- Witness for C9 at id 99 over a one-phone state. -/
theorem absent_id_operations_noop_witness :
    (∀ ph ∈ sampleSt.db, ph.id ≠ 99) ∧
    (update_phone 99 {} sampleSt = (none, sampleSt) ∧
     delete_phone 99 sampleSt = (false, sampleSt) ∧
     list_phone_on_platform 99 "X" sampleSt =
       (ListingResult.error "Phone not found", sampleSt)) :=
  ⟨by decide, absent_id_operations_noop sampleSt 99 {} "X" (by decide)⟩

/-- C10: an "id" key inside the creation input overrides the assigned id:
create stores and returns a phone carrying the supplied id (also along the
bulk-upload path), while the max-plus-one assignment holds exactly when the
input carries no "id" key. -/
theorem create_input_id_overrides (d : PhoneData) (s : St) (j : Nat)
    (hd : d.id? = some j) :
    (create_phone d s).1.id = j ∧
    (create_phone d s).2.db = s.db ++ [(create_phone d s).1] ∧
    (bulk_upload_phones [d] s).db = s.db ++ [(create_phone d s).1] ∧
    (∀ d2 : PhoneData, ∀ s2 : St, d2.id? = none →
      (create_phone d2 s2).1.id = next_phone_id s2.db) := by
  refine ⟨?_, rfl, rfl, ?_⟩
  · simp [create_phone, hd]
  · intro d2 s2 h2
    simp [create_phone, h2]

/-- Witness for C10 with supplied id 7 over the empty state. -/
theorem create_input_id_overrides_witness :
    sampleDataWithId.id? = some 7 ∧
    ((create_phone sampleDataWithId initSt).1.id = 7 ∧
     (create_phone sampleDataWithId initSt).2.db =
       initSt.db ++ [(create_phone sampleDataWithId initSt).1] ∧
     (bulk_upload_phones [sampleDataWithId] initSt).db =
       initSt.db ++ [(create_phone sampleDataWithId initSt).1] ∧
     (∀ d2 : PhoneData, ∀ s2 : St, d2.id? = none →
       (create_phone d2 s2).1.id = next_phone_id s2.db)) :=
  ⟨rfl, create_input_id_overrides sampleDataWithId initSt 7 rfl⟩

theorem foldl_max_range (k : Nat) :
    (List.range' 1 k).foldl Nat.max 0 = k := by
  induction k with
  | zero => rfl
  | succ n ih =>
    rw [List.range'_1_concat, List.foldl_append, ih]
    simp [Nat.max_def]
    omega

theorem create_ids_aux (ds : List PhoneData) (s : St) (k : Nat)
    (h : ∀ d ∈ ds, d.id? = none)
    (hids : s.db.map Phone.id = List.range' 1 k) :
    ((ds.map Op.create).foldl step s).db.map Phone.id =
      List.range' 1 (k + ds.length) := by
  induction ds generalizing s k with
  | nil => simpa using hids
  | cons d rest ih =>
    have hd : d.id? = none := h d (List.mem_cons_self _ _)
    have hrest : ∀ d2 ∈ rest, d2.id? = none :=
      fun d2 h2 => h d2 (List.mem_cons_of_mem _ h2)
    have hnext : next_phone_id s.db = k + 1 := by
      rcases Nat.eq_zero_or_pos k with hk | hk
      · subst hk
        have hdb : s.db = [] := by
          have := hids
          simpa [List.map_eq_nil_iff] using this
        simp [next_phone_id, hdb]
      · have hne : s.db ≠ [] := by
          intro hdb
          rw [hdb] at hids
          have : (List.range' 1 k).length = 0 := by rw [← hids]; rfl
          simp at this
          omega
        rw [next_phone_id, if_neg (by simpa [List.isEmpty_iff] using hne),
          hids, foldl_max_range]
    have hstep : (step s (Op.create d)).db.map Phone.id =
        List.range' 1 (k + 1) := by
      simp only [step, create_phone, hd, Option.getD_none]
      rw [List.map_append, hids, List.range'_1_concat]
      simp [hnext, Nat.add_comm]
    have := ih (step s (Op.create d)) (k + 1) hrest hstep
    rw [List.map_cons, List.foldl_cons]
    rw [this]
    simp only [List.length_cons]
    congr 1
    omega

/-- C4 amended: with inputs carrying no "id" key, create assigns
max(existing ids) + 1 (1 when the collection is empty) and creating N phones
from empty storage assigns ids 1..N in creation order; a retired id CAN
however be reassigned once no larger id remains, so only the
never-reused-after-deletion part of the claim fails. -/
theorem create_assigns_sequential_ids (ds : List PhoneData)
    (h : ∀ d ∈ ds, d.id? = none) :
    (run (ds.map Op.create)).db.map Phone.id = List.range' 1 ds.length ∧
    (∀ s : St, ∀ d : PhoneData, d.id? = none →
      (create_phone d s).1.id =
        if s.db.isEmpty then 1
        else (s.db.map Phone.id).foldl Nat.max 0 + 1) := by
  constructor
  · have := create_ids_aux ds initSt 0 h rfl
    simpa [run] using this
  · intro s d hd
    simp [create_phone, next_phone_id, hd]

/-- Witness for the amended C4: three creations from empty yield ids 1, 2, 3. -/
theorem create_assigns_sequential_ids_witness :
    (∀ d ∈ [sampleData, sampleData, sampleData], d.id? = none) ∧
    ((run ([sampleData, sampleData, sampleData].map Op.create)).db.map
        Phone.id = List.range' 1 3 ∧
     (∀ s : St, ∀ d : PhoneData, d.id? = none →
       (create_phone d s).1.id =
         if s.db.isEmpty then 1
         else (s.db.map Phone.id).foldl Nat.max 0 + 1)) :=
  ⟨by decide,
   by
    have := create_assigns_sequential_ids [sampleData, sampleData, sampleData]
      (by decide)
    simpa using this⟩

/-- C4 counterexample: create, create, delete the phone with id 2, create
again — the retired id 2 is reassigned to the later-created phone. -/
theorem retired_id_reused_counterexample :
    (run [Op.create sampleData, Op.create sampleData]).db.map Phone.id
      = [1, 2] ∧
    (run [Op.create sampleData, Op.create sampleData,
          Op.delete 2]).db.map Phone.id = [1] ∧
    (run [Op.create sampleData, Op.create sampleData, Op.delete 2,
          Op.create sampleData]).db.map Phone.id = [1, 2] := by
  decide

end PhoneDash

namespace PhoneDash

theorem filter_three (f g h : Phone → Bool) (l : List Phone) :
    ((l.filter f).filter g).filter h
      = l.filter (fun p => f p && g p && h p) := by
  rw [List.filter_filter, List.filter_filter]
  apply List.filter_congr
  intro p _
  cases f p <;> cases g p <;> cases h p <;> rfl

theorem filter_brand_eq (brand : Option String) (l : List Phone) :
    (match brand with
     | some b => if b = "" then l
                 else l.filter (fun p => p.brand.toLower == b.toLower)
     | none => l) = l.filter (brand_ok brand) := by
  cases brand with
  | none =>
    rw [show brand_ok none = fun _ => true from rfl, List.filter_true]
  | some b =>
    by_cases hb : b = ""
    · subst hb
      rw [show brand_ok (some "") = fun _ => true from rfl, List.filter_true]
      simp
    · show (if b = "" then l
             else List.filter (fun p => p.brand.toLower == b.toLower) l) = _
      rw [if_neg hb]
      apply List.filter_congr
      intro p _
      simp [brand_ok, hb]

theorem filter_condition_eq (condition : Option String) (l : List Phone) :
    (match condition with
     | some c => if c = "" then l
                 else l.filter (fun p => p.condition.toLower == c.toLower)
     | none => l) = l.filter (condition_ok condition) := by
  cases condition with
  | none =>
    rw [show condition_ok none = fun _ => true from rfl, List.filter_true]
  | some c =>
    by_cases hc : c = ""
    · subst hc
      rw [show condition_ok (some "") = fun _ => true from rfl,
        List.filter_true]
      simp
    · show (if c = "" then l
             else List.filter (fun p => p.condition.toLower == c.toLower) l) = _
      rw [if_neg hc]
      apply List.filter_congr
      intro p _
      simp [condition_ok, hc]

theorem filter_platform_eq (platform : Option String) (l : List Phone) :
    (match platform with
     | some pl => if pl = "" then l
                  else l.filter (fun p => p.listed_on.contains pl)
     | none => l) = l.filter (platform_ok platform) := by
  cases platform with
  | none =>
    rw [show platform_ok none = fun _ => true from rfl, List.filter_true]
  | some pl =>
    by_cases hp : pl = ""
    · subst hp
      rw [show platform_ok (some "") = fun _ => true from rfl,
        List.filter_true]
      simp
    · show (if pl = "" then l
             else List.filter (fun p => p.listed_on.contains pl) l) = _
      rw [if_neg hp]
      apply List.filter_congr
      intro p _
      simp [platform_ok, hp]

theorem search_and_filter_eq (db : List Phone)
    (brand condition platform : Option String) (skip limit : Nat) :
    search_and_filter_phones brand condition platform skip limit db =
      { total_items :=
          (((db.filter (brand_ok brand)).filter
            (condition_ok condition)).filter (platform_ok platform)).length
        items :=
          ((((db.filter (brand_ok brand)).filter
            (condition_ok condition)).filter
              (platform_ok platform)).drop skip).take limit } := by
  simp only [search_and_filter_phones]
  rw [filter_brand_eq, filter_condition_eq, filter_platform_eq]

/-- C8: totalItems is the count of phones passing the three filters before
pagination, items is the slice [skip, skip+limit) of the filtered results in
storage order, and with skip 0 and limit L on an unfiltered set of size M
the page has min(L, M) items and totalItems = M. -/
theorem search_filter_pagination (db : List Phone)
    (brand condition platform : Option String) (skip limit : Nat) :
    (search_and_filter_phones brand condition platform skip limit db).total_items
      = (db.filter (fun p => brand_ok brand p && condition_ok condition p &&
          platform_ok platform p)).length ∧
    (search_and_filter_phones brand condition platform skip limit db).items
      = ((db.filter (fun p => brand_ok brand p && condition_ok condition p &&
          platform_ok platform p)).drop skip).take limit ∧
    (search_and_filter_phones none none none 0 limit db).items.length
      = min limit db.length ∧
    (search_and_filter_phones none none none 0 limit db).total_items
      = db.length := by
  refine ⟨?_, ?_, ?_, ?_⟩
  · rw [search_and_filter_eq, filter_three]
  · rw [search_and_filter_eq, filter_three]
  · simp [search_and_filter_phones]
  · simp [search_and_filter_phones]

end PhoneDash

namespace PhoneDash

theorem get_phone_set_listed_on (phone_id : Nat) (l : List String)
    (db : List Phone) :
    get_phone_by_id phone_id (set_listed_on phone_id l db)
      = (get_phone_by_id phone_id db).map
          (fun ph => { ph with listed_on := l }) := by
  induction db with
  | nil => rfl
  | cons ph rest ih =>
    by_cases h : ph.id = phone_id
    · simp only [set_listed_on, if_pos h]
      rw [get_phone_by_id, List.find?_cons_of_pos _ (by simp [h]),
        get_phone_by_id, List.find?_cons_of_pos _ (by simp [h])]
      rfl
    · simp only [set_listed_on, if_neg h]
      rw [get_phone_by_id, List.find?_cons_of_neg _ (by simp [h]),
        get_phone_by_id, List.find?_cons_of_neg _ (by simp [h])]
      exact ih

theorem list_on_eval_already_listed (s : St) (phone_id : Nat) (p : String)
    (phone : Phone) (c : String)
    (hfind : get_phone_by_id phone_id s.db = some phone)
    (hstock : ¬phone.stock_quantity = 0)
    (hc : map_condition_to_platform phone.condition p = some c)
    (hfee : ¬(p = "X" ∧ phone.base_price < 50))
    (hmem : p ∈ phone.listed_on) :
    list_phone_on_platform phone_id p s =
      (ListingResult.message ("Successfully listed " ++ phone.model_name ++
        " on platform " ++ p), s) := by
  simp only [list_phone_on_platform, hfind, hc]
  rw [if_neg hstock, if_neg hfee, if_pos hmem]

theorem list_on_eval_new_listing (s : St) (phone_id : Nat) (p : String)
    (phone : Phone) (c : String)
    (hfind : get_phone_by_id phone_id s.db = some phone)
    (hstock : ¬phone.stock_quantity = 0)
    (hc : map_condition_to_platform phone.condition p = some c)
    (hfee : ¬(p = "X" ∧ phone.base_price < 50))
    (hmem : p ∉ phone.listed_on) :
    list_phone_on_platform phone_id p s =
      (ListingResult.message ("Successfully listed " ++ phone.model_name ++
        " on platform " ++ p),
       { db := set_listed_on phone_id (phone.listed_on ++ [p]) s.db
         log := log_action "Platform Listing"
           (phone.model_name ++ " listed on platform " ++ p) s.log }) := by
  simp only [list_phone_on_platform, hfind, hc]
  rw [if_neg hstock, if_neg hfee, if_neg hmem]

/-- C6: for an eligible phone already listed on p, a further listOnPlatform
call returns success and leaves the whole state unchanged; starting from an
eligible unlisted phone, two consecutive calls leave exactly one new
listed_on entry and exactly one new "Platform Listing" log entry. -/
theorem list_on_platform_idempotent (s : St) (phone_id : Nat) (p : String)
    (phone : Phone)
    (hfind : get_phone_by_id phone_id s.db = some phone)
    (hstock : phone.stock_quantity ≠ 0)
    (hcond : (map_condition_to_platform phone.condition p).isSome = true)
    (hfee : ¬(p = "X" ∧ phone.base_price < 50)) :
    (p ∈ phone.listed_on →
      list_phone_on_platform phone_id p s =
        (ListingResult.message ("Successfully listed " ++ phone.model_name ++
          " on platform " ++ p), s)) ∧
    (p ∉ phone.listed_on →
      get_phone_by_id phone_id ((list_phone_on_platform phone_id p s).2).db
        = some { phone with listed_on := phone.listed_on ++ [p] } ∧
      ({ phone with listed_on := phone.listed_on ++ [p] }).listed_on.count p
        = 1 ∧
      count_log "Platform Listing"
          ((list_phone_on_platform phone_id p s).2).log
        = count_log "Platform Listing" s.log + 1 ∧
      list_phone_on_platform phone_id p ((list_phone_on_platform phone_id p s).2)
        = (ListingResult.message ("Successfully listed " ++ phone.model_name ++
            " on platform " ++ p), (list_phone_on_platform phone_id p s).2)) := by
  obtain ⟨c, hc⟩ := Option.isSome_iff_exists.mp hcond
  constructor
  · intro hmem
    exact list_on_eval_already_listed s phone_id p phone c hfind hstock hc
      hfee hmem
  · intro hmem
    have heval := list_on_eval_new_listing s phone_id p phone c hfind hstock
      hc hfee hmem
    have hfind2 : get_phone_by_id phone_id
        ((list_phone_on_platform phone_id p s).2).db
        = some { phone with listed_on := phone.listed_on ++ [p] } := by
      rw [heval, get_phone_set_listed_on, hfind]
      rfl
    refine ⟨hfind2, ?_, ?_, ?_⟩
    · simp [List.count_append, List.count_eq_zero.mpr hmem]
    · rw [heval]
      simp [count_log, log_action]
    · exact list_on_eval_already_listed _ phone_id p
        { phone with listed_on := phone.listed_on ++ [p] } c hfind2 hstock hc
        hfee (List.mem_append_right _ (List.mem_cons_self _ _))

/-- Witness for C6: the sample phone listed on Y, relisted on Y. -/
theorem list_on_platform_idempotent_witness :
    (get_phone_by_id 1 sampleStListed.db = some samplePhoneListed ∧
     samplePhoneListed.stock_quantity ≠ 0 ∧
     (map_condition_to_platform samplePhoneListed.condition "Y").isSome
       = true ∧
     ¬("Y" = "X" ∧ samplePhoneListed.base_price < 50) ∧
     "Y" ∈ samplePhoneListed.listed_on) ∧
    list_phone_on_platform 1 "Y" sampleStListed =
      (ListingResult.message ("Successfully listed " ++
        samplePhoneListed.model_name ++ " on platform " ++ "Y"),
       sampleStListed) :=
  ⟨⟨rfl, by decide, rfl, by decide, by decide⟩,
   (list_on_platform_idempotent sampleStListed 1 "Y" samplePhoneListed rfl
     (by decide) rfl (by decide)).1 (by decide)⟩

end PhoneDash

namespace PhoneDash

/-- A phone's stored platform_prices agree with a full recomputation from
its current base price and manual overrides. -/
def prices_consistent (phone : Phone) : Prop :=
  phone.platform_prices = platforms.map fun p =>
    (p, calculate_platform_price phone.base_price p phone.manual_overrides)

/-- Every phone of the collection has fresh platform_prices. -/
def prices_inv (db : List Phone) : Prop := ∀ ph ∈ db, prices_consistent ph

theorem prices_consistent_create (d : PhoneData) (s : St) :
    prices_consistent (create_phone d s).1 := rfl

theorem prices_consistent_apply_update (u : PhoneUpdate) (q : Phone) :
    prices_consistent (apply_phone_update u q) := rfl

theorem update_in_db_mem (phone_id : Nat) (u : PhoneUpdate)
    (db db2 : List Phone) (r : Phone)
    (h : update_in_db phone_id u db = some (r, db2)) :
    ∀ ph ∈ db2, ph ∈ db ∨ ∃ q, q ∈ db ∧ ph = apply_phone_update u q := by
  induction db generalizing db2 r with
  | nil => cases h
  | cons q rest ih =>
    by_cases hq : q.id = phone_id
    · simp only [update_in_db, if_pos hq, Option.some.injEq, Prod.mk.injEq]
        at h
      intro ph hph
      rw [← h.2] at hph
      rcases List.mem_cons.mp hph with h1 | h1
      · exact Or.inr ⟨q, List.mem_cons_self _ _, h1⟩
      · exact Or.inl (List.mem_cons_of_mem _ h1)
    · simp only [update_in_db, if_neg hq] at h
      cases hrec : update_in_db phone_id u rest with
      | none => rw [hrec] at h; cases h
      | some pr =>
        obtain ⟨r2, rest2⟩ := pr
        rw [hrec] at h
        simp only [Option.some.injEq, Prod.mk.injEq] at h
        intro ph hph
        rw [← h.2] at hph
        rcases List.mem_cons.mp hph with h1 | h1
        · exact Or.inl (h1 ▸ List.mem_cons_self _ _)
        · rcases ih rest2 r2 hrec ph h1 with h2 | ⟨q2, hq2, he⟩
          · exact Or.inl (List.mem_cons_of_mem _ h2)
          · exact Or.inr ⟨q2, List.mem_cons_of_mem _ hq2, he⟩

theorem delete_from_db_mem (phone_id : Nat) (db db2 : List Phone) (d : Phone)
    (h : delete_from_db phone_id db = some (d, db2)) :
    ∀ ph ∈ db2, ph ∈ db := by
  induction db generalizing db2 d with
  | nil => cases h
  | cons q rest ih =>
    by_cases hq : q.id = phone_id
    · simp only [delete_from_db, if_pos hq, Option.some.injEq,
        Prod.mk.injEq] at h
      intro ph hph
      rw [← h.2] at hph
      exact List.mem_cons_of_mem _ hph
    · simp only [delete_from_db, if_neg hq] at h
      cases hrec : delete_from_db phone_id rest with
      | none => rw [hrec] at h; cases h
      | some pr =>
        obtain ⟨d2, rest2⟩ := pr
        rw [hrec] at h
        simp only [Option.some.injEq, Prod.mk.injEq] at h
        intro ph hph
        rw [← h.2] at hph
        rcases List.mem_cons.mp hph with h1 | h1
        · exact h1 ▸ List.mem_cons_self _ _
        · exact List.mem_cons_of_mem _ (ih rest2 d2 hrec ph h1)

theorem mem_set_listed_on (phone_id : Nat) (l : List String)
    (db : List Phone) :
    ∀ ph ∈ set_listed_on phone_id l db,
      ph ∈ db ∨ ∃ q, q ∈ db ∧ ph = { q with listed_on := l } := by
  induction db with
  | nil => intro ph hph; cases hph
  | cons q rest ih =>
    intro ph hph
    by_cases hq : q.id = phone_id
    · rw [set_listed_on, if_pos hq] at hph
      rcases List.mem_cons.mp hph with h1 | h1
      · exact Or.inr ⟨q, List.mem_cons_self _ _, h1⟩
      · exact Or.inl (List.mem_cons_of_mem _ h1)
    · rw [set_listed_on, if_neg hq] at hph
      rcases List.mem_cons.mp hph with h1 | h1
      · exact Or.inl (h1 ▸ List.mem_cons_self _ _)
      · rcases ih ph h1 with h2 | ⟨q2, hq2, he⟩
        · exact Or.inl (List.mem_cons_of_mem _ h2)
        · exact Or.inr ⟨q2, List.mem_cons_of_mem _ hq2, he⟩

theorem list_on_db_cases (phone_id : Nat) (p : String) (s : St) :
    ((list_phone_on_platform phone_id p s).2).db = s.db ∨
    ∃ l, ((list_phone_on_platform phone_id p s).2).db
      = set_listed_on phone_id l s.db := by
  unfold list_phone_on_platform
  split
  · exact Or.inl rfl
  · split
    · exact Or.inl rfl
    · split
      · exact Or.inl rfl
      · split
        · exact Or.inl rfl
        · split
          · exact Or.inl rfl
          · exact Or.inr ⟨_, rfl⟩

theorem prices_inv_list_on (phone_id : Nat) (p : String) (s : St)
    (h : prices_inv s.db) :
    prices_inv ((list_phone_on_platform phone_id p s).2).db := by
  rcases list_on_db_cases phone_id p s with hdb | ⟨l, hdb⟩
  · rw [hdb]; exact h
  · rw [hdb]
    intro ph hph
    rcases mem_set_listed_on phone_id l s.db ph hph with h1 | ⟨q, hq, he⟩
    · exact h ph h1
    · rw [he]
      exact h q hq

theorem prices_inv_step (s : St) (op : Op) (h : prices_inv s.db) :
    prices_inv (step s op).db := by
  cases op with
  | create d =>
    intro ph hph
    rcases List.mem_append.mp hph with h1 | h1
    · exact h ph h1
    · rw [List.mem_singleton.mp h1]
      exact prices_consistent_create d s
  | update phone_id u =>
    show prices_inv ((update_phone phone_id u s).2).db
    rw [update_phone]
    cases hrec : update_in_db phone_id u s.db with
    | none => exact h
    | some pr =>
      obtain ⟨r, db2⟩ := pr
      intro ph hph
      rcases update_in_db_mem phone_id u s.db db2 r hrec ph hph with
        h1 | ⟨q, _, he⟩
      · exact h ph h1
      · rw [he]
        exact prices_consistent_apply_update u q
  | delete phone_id =>
    show prices_inv ((delete_phone phone_id s).2).db
    rw [delete_phone]
    cases hrec : delete_from_db phone_id s.db with
    | none => exact h
    | some pr =>
      obtain ⟨d, db2⟩ := pr
      intro ph hph
      exact h ph (delete_from_db_mem phone_id s.db db2 d hrec ph hph)
  | listOn phone_id p => exact prices_inv_list_on phone_id p s h
  | bulkList p b c =>
    show prices_inv ((bulk_list_on_platform p b c s).2).db
    rw [bulk_list_on_platform]
    have hfold : ∀ (items : List Phone) (acc : (Nat × Nat) × St),
        prices_inv acc.2.db →
        prices_inv ((items.foldl
          (fun acc phone =>
            let ((succ, failed), st) := acc
            if p ∈ phone.listed_on then ((succ, failed), st)
            else
              match list_phone_on_platform phone.id p st with
              | (.error _, st2) => ((succ, failed + 1), st2)
              | (.message _, st2) => ((succ + 1, failed), st2)) acc).2).db := by
      intro items
      induction items with
      | nil => intro acc hacc; exact hacc
      | cons phone rest ih =>
        intro acc hacc
        obtain ⟨⟨succ, failed⟩, st⟩ := acc
        rw [List.foldl_cons]
        by_cases hmem : p ∈ phone.listed_on
        · simp only [if_pos hmem]
          exact ih _ hacc
        · simp only [if_neg hmem]
          cases hres : list_phone_on_platform phone.id p st with
          | mk r st2 =>
            have hst2 : prices_inv st2.db := by
              have := prices_inv_list_on phone.id p st hacc
              rw [hres] at this
              exact this
            cases r with
            | error msg => exact ih _ hst2
            | message msg => exact ih _ hst2
    exact hfold _ _ h
  | priceUpdate =>
    intro ph hph
    rcases List.mem_map.mp hph with ⟨q, _, he⟩
    rw [← he]
    rfl
  | bulkUpload ds =>
    show prices_inv (bulk_upload_phones ds s).db
    simp only [bulk_upload_phones]
    have hfold : ∀ (ds2 : List PhoneData) (s2 : St), prices_inv s2.db →
        prices_inv ((ds2.foldl (fun st d2 => (create_phone d2 st).2) s2)).db := by
      intro ds2
      induction ds2 with
      | nil => intro s2 hs2; exact hs2
      | cons d2 rest ih =>
        intro s2 hs2
        rw [List.foldl_cons]
        apply ih
        intro ph hph
        rcases List.mem_append.mp hph with h1 | h1
        · exact hs2 ph h1
        · rw [List.mem_singleton.mp h1]
          exact prices_consistent_create d2 s2
    exact hfold ds s h

theorem prices_inv_run_aux (ops : List Op) (s : St) (h : prices_inv s.db) :
    prices_inv (ops.foldl step s).db := by
  induction ops generalizing s with
  | nil => exact h
  | cons op rest ih =>
    rw [List.foldl_cons]
    exact ih _ (prices_inv_step s op h)

/-- C3: in every state reachable by any sequence of service operations from
empty storage, every phone's stored platform_prices equal the wholesale
recomputation over the platform set from its current base price and manual
overrides — derived prices are never stale. -/
theorem platform_prices_never_stale (ops : List Op) (phone : Phone)
    (h : phone ∈ (run ops).db) :
    phone.platform_prices = platforms.map fun p =>
      (p, calculate_platform_price phone.base_price p
            phone.manual_overrides) := by
  have hinv : prices_inv (run ops).db :=
    prices_inv_run_aux ops initSt (fun ph hph => absurd hph (by simp [initSt]))
  exact hinv phone h

/-- Witness for C3 after one creation. -/
theorem platform_prices_never_stale_witness :
    (create_phone sampleData initSt).1 ∈ (run [Op.create sampleData]).db ∧
    (create_phone sampleData initSt).1.platform_prices =
      platforms.map fun p =>
        (p, calculate_platform_price
              (create_phone sampleData initSt).1.base_price p
              (create_phone sampleData initSt).1.manual_overrides) :=
  ⟨List.mem_cons_self _ _,
   platform_prices_never_stale [Op.create sampleData] _
     (List.mem_cons_self _ _)⟩

end PhoneDash

namespace PhoneDash

/-- Every phone is only listed on platforms it currently passes the
eligibility checks for. -/
def elig_inv (db : List Phone) : Prop :=
  ∀ ph ∈ db, ∀ p ∈ ph.listed_on, eligible ph p

theorem set_listed_on_of_find (phone_id : Nat) (l : List String)
    (db : List Phone) (phone : Phone)
    (hfind : get_phone_by_id phone_id db = some phone) :
    ∀ ph ∈ set_listed_on phone_id l db,
      ph ∈ db ∨ ph = { phone with listed_on := l } := by
  induction db with
  | nil => cases hfind
  | cons q rest ih =>
    by_cases hq : q.id = phone_id
    · have hqe : q = phone := by
        rw [get_phone_by_id, List.find?_cons_of_pos _ (by simp [hq])] at hfind
        exact Option.some.inj hfind
      subst hqe
      intro ph hph
      rw [set_listed_on, if_pos hq] at hph
      rcases List.mem_cons.mp hph with h1 | h1
      · exact Or.inr h1
      · exact Or.inl (List.mem_cons_of_mem _ h1)
    · rw [get_phone_by_id, List.find?_cons_of_neg _ (by simp [hq])] at hfind
      intro ph hph
      rw [set_listed_on, if_neg hq] at hph
      rcases List.mem_cons.mp hph with h1 | h1
      · exact Or.inl (h1 ▸ List.mem_cons_self _ _)
      · rcases ih hfind ph h1 with h2 | h2
        · exact Or.inl (List.mem_cons_of_mem _ h2)
        · exact Or.inr h2

theorem eligible_apply_update_iff (u : PhoneUpdate) (q : Phone) (p : String)
    (h1 : u.stock_quantity = none) (h2 : u.condition = none)
    (h3 : u.base_price = none) :
    eligible (apply_phone_update u q) p ↔ eligible q p := by
  simp [eligible, apply_phone_update, h1, h2, h3]

theorem elig_inv_list_on (phone_id : Nat) (p : String) (s : St)
    (h : elig_inv s.db) :
    elig_inv ((list_phone_on_platform phone_id p s).2).db := by
  unfold list_phone_on_platform
  split
  · exact h
  · rename_i phone heq
    split
    · exact h
    · rename_i hstock
      split
      · exact h
      · rename_i c hc
        split
        · exact h
        · rename_i hfee
          split
          · exact h
          · rename_i hmem
            intro ph hph
            rcases set_listed_on_of_find phone_id (phone.listed_on ++ [p])
                s.db phone heq ph hph with h1 | h1
            · exact h ph h1
            · rw [h1]
              intro q hq
              rcases List.mem_append.mp hq with h2 | h2
              · exact h phone (List.mem_of_find?_eq_some heq) q h2
              · rw [List.mem_singleton.mp h2]
                exact ⟨hstock, by rw [hc]; rfl, hfee⟩

theorem elig_inv_step (s : St) (op : Op) (hsafe : op_safe op)
    (h : elig_inv s.db) : elig_inv (step s op).db := by
  cases op with
  | create d =>
    intro ph hph
    rcases List.mem_append.mp hph with h1 | h1
    · exact h ph h1
    · rw [List.mem_singleton.mp h1]
      intro p hp
      exact absurd hp (List.not_mem_nil _)
  | update phone_id u =>
    obtain ⟨h1, h2, h3⟩ := hsafe
    show elig_inv ((update_phone phone_id u s).2).db
    rw [update_phone]
    cases hrec : update_in_db phone_id u s.db with
    | none => exact h
    | some pr =>
      obtain ⟨r, db2⟩ := pr
      intro ph hph
      rcases update_in_db_mem phone_id u s.db db2 r hrec ph hph with
        hm | ⟨q, hq, he⟩
      · exact h ph hm
      · rw [he]
        intro p hp
        exact (eligible_apply_update_iff u q p h1 h2 h3).mpr (h q hq p hp)
  | delete phone_id =>
    show elig_inv ((delete_phone phone_id s).2).db
    rw [delete_phone]
    cases hrec : delete_from_db phone_id s.db with
    | none => exact h
    | some pr =>
      obtain ⟨d, db2⟩ := pr
      intro ph hph
      exact h ph (delete_from_db_mem phone_id s.db db2 d hrec ph hph)
  | listOn phone_id p => exact elig_inv_list_on phone_id p s h
  | bulkList p b c =>
    show elig_inv ((bulk_list_on_platform p b c s).2).db
    rw [bulk_list_on_platform]
    have hfold : ∀ (items : List Phone) (acc : (Nat × Nat) × St),
        elig_inv acc.2.db →
        elig_inv ((items.foldl
          (fun acc phone =>
            let ((succ, failed), st) := acc
            if p ∈ phone.listed_on then ((succ, failed), st)
            else
              match list_phone_on_platform phone.id p st with
              | (.error _, st2) => ((succ, failed + 1), st2)
              | (.message _, st2) => ((succ + 1, failed), st2)) acc).2).db := by
      intro items
      induction items with
      | nil => intro acc hacc; exact hacc
      | cons phone rest ih =>
        intro acc hacc
        obtain ⟨⟨succ, failed⟩, st⟩ := acc
        rw [List.foldl_cons]
        by_cases hmem : p ∈ phone.listed_on
        · simp only [if_pos hmem]
          exact ih _ hacc
        · simp only [if_neg hmem]
          cases hres : list_phone_on_platform phone.id p st with
          | mk r st2 =>
            have hst2 : elig_inv st2.db := by
              have := elig_inv_list_on phone.id p st hacc
              rw [hres] at this
              exact this
            cases r with
            | error msg => exact ih _ hst2
            | message msg => exact ih _ hst2
    exact hfold _ _ h
  | priceUpdate =>
    intro ph hph
    rcases List.mem_map.mp hph with ⟨q, hq, he⟩
    rw [← he]
    intro p hp
    exact h q hq p hp
  | bulkUpload ds =>
    show elig_inv (bulk_upload_phones ds s).db
    simp only [bulk_upload_phones]
    have hfold : ∀ (ds2 : List PhoneData) (s2 : St), elig_inv s2.db →
        elig_inv ((ds2.foldl (fun st d2 => (create_phone d2 st).2) s2)).db := by
      intro ds2
      induction ds2 with
      | nil => intro s2 hs2; exact hs2
      | cons d2 rest ih =>
        intro s2 hs2
        rw [List.foldl_cons]
        apply ih
        intro ph hph
        rcases List.mem_append.mp hph with h1 | h1
        · exact hs2 ph h1
        · rw [List.mem_singleton.mp h1]
          intro p hp
          exact absurd hp (List.not_mem_nil _)
    exact hfold ds s h

theorem elig_inv_run_aux (ops : List Op) (s : St)
    (hops : ∀ op ∈ ops, op_safe op) (h : elig_inv s.db) :
    elig_inv (ops.foldl step s).db := by
  induction ops generalizing s with
  | nil => exact h
  | cons op rest ih =>
    rw [List.foldl_cons]
    exact ih _ (fun o ho => hops o (List.mem_cons_of_mem _ ho))
      (elig_inv_step s op (hops op (List.mem_cons_self _ _)) h)

/-- C5 amended: in every state reachable when no update touches
stock_quantity, condition or base_price, every phone's listed_on contains
only platforms it currently passes the eligibility checks for; a general
update may invalidate eligibility of an already-listed platform without
pruning listed_on, so the unrestricted claim fails. -/
theorem listed_on_only_eligible (ops : List Op)
    (hops : ∀ op ∈ ops, op_safe op) (phone : Phone)
    (hmem : phone ∈ (run ops).db) (p : String)
    (hp : p ∈ phone.listed_on) : eligible phone p := by
  have hinv : elig_inv (run ops).db :=
    elig_inv_run_aux ops initSt hops (fun ph hph => absurd hph (by simp [initSt]))
  exact hinv phone hmem p hp

/-- Witness for the amended C5: create then list on X, both safe. -/
theorem listed_on_only_eligible_witness :
    (∀ op ∈ [Op.create sampleData, Op.listOn 1 "X"], op_safe op) ∧
    eligible { (create_phone sampleData initSt).1 with
      listed_on := ([] : List String) ++ ["X"] } "X" :=
  ⟨by simp [op_safe],
   listed_on_only_eligible [Op.create sampleData, Op.listOn 1 "X"]
     (by simp [op_safe])
     { (create_phone sampleData initSt).1 with
       listed_on := ([] : List String) ++ ["X"] }
     (List.mem_cons_self _ _) "X" (List.mem_cons_self _ _)⟩

/-- C5 counterexample: create an eligible phone, list it on X, then update
its stock to zero — the reachable state keeps X in listed_on although the
phone now fails the stock eligibility check. -/
theorem listed_eligibility_counterexample :
    ¬ (∀ ph ∈ (run [Op.create sampleData, Op.listOn 1 "X",
          Op.update 1 sampleStockZero]).db,
        ∀ p ∈ ph.listed_on, eligible ph p) := by
  decide

end PhoneDash
